import Mathlib

set_option maxRecDepth 100000

/-!
Shallow embedding of the cache_stats repository (src/common.h, src/common.cc,
src/flash_stats.h, src/cache_stats.h).

Modelling conventions:
* machine integers (uint64/uint32 counters, size_t sizes, okey_t keys) are
  `Nat`; no claim under study concerns integer wrap-around, and every counter
  is a monotone increment.  The per-key `uint8_t` copy-forward counter keeps
  the source's explicit saturation test (`< 0xff`) verbatim;
* `std::unordered_map` is an association list with in-place update; the
  create-on-access behaviour of `operator[]` is reproduced at each call site
  (`(mfind m k).getD default` followed by `mupd`);
* a failed `assert` aborts the process, so a fallible member function returns
  `Option`: `none` means the assertion fired and no post-state exists;
* IEEE `double` values in the reporting code are `DVal`, which separates
  finite values, NaN and infinity.  Division follows IEEE exactly where the
  claims look: 0/0 = NaN, x/0 = inf for x > 0, finite otherwise (the finite
  payload carries the exact rational; rounding never turns a finite
  nonnegative quotient into NaN or infinity at these magnitudes).
-/

/-- `Counter` from src/common.h: a byte total (uint64 `byte_counter`) and an
object total (uint32 `object_counter`). -/
structure Counter where
  byte_counter : Nat
  object_counter : Nat
deriving Repr, DecidableEq

/-- The zero-initialised `Counter` (both fields are `= 0` in the source). -/
def Counter.zero : Counter :=
  { byte_counter := 0, object_counter := 0 }

/-- `Counter::increment(size)`: adds `size` bytes and one object. -/
def Counter.increment (c : Counter) (size : Nat) : Counter :=
  { byte_counter := c.byte_counter + size, object_counter := c.object_counter + 1 }

/-- Association-list lookup, modelling `unordered_map::find`. -/
def mfind {κ α : Type} [DecidableEq κ] : List (κ × α) → κ → Option α
  | [], _ => none
  | (k, v) :: rest, n => if k = n then some v else mfind rest n

/-- Association-list insert-or-update, modelling assignment through
`unordered_map::operator[]`. -/
def mupd {κ α : Type} [DecidableEq κ] : List (κ × α) → κ → α → List (κ × α)
  | [], n, v => [(n, v)]
  | (k, w) :: rest, n, v => if k = n then (k, v) :: rest else (k, w) :: mupd rest n v

/-- Association-list removal, modelling `unordered_map::erase(key)` (the C++
map never holds a duplicate key, so removing every matching entry coincides
with removing the one entry). -/
def merase {κ α : Type} [DecidableEq κ] : List (κ × α) → κ → List (κ × α)
  | [], _ => []
  | (k, w) :: rest, n => if k = n then merase rest n else (k, w) :: merase rest n

/-- The `Counter` read through `counters[name]`.  For an absent name
`operator[]` default-constructs a zero counter, which is what `getD` returns
(every name the source reads this way is present in every reachable state). -/
def cget (m : List (String × Counter)) (name : String) : Counter :=
  (mfind m name).getD Counter.zero

/-- `counters[name].increment(sz)`: `operator[]` finds the entry or silently
default-constructs it, then the counter is incremented in place. -/
def cincr (m : List (String × Counter)) (name : String) (sz : Nat) : List (String × Counter) :=
  mupd m name ((cget m name).increment sz)

/-- The five used bits of the per-key `std::bitset<8>` in `FlashStats`,
positions `INSERTED, READ, SKIPPED_INSERT, SKIPPED_CF, CF` (bits 5..7 of the
source bitset are never touched).  A fresh bitset (`= 0`) has every flag
`false`. -/
structure Flags where
  inserted : Bool := false
  read : Bool := false
  skipped_insert : Bool := false
  skipped_cf : Bool := false
  cf : Bool := false
deriving Repr, DecidableEq, Inhabited

/-- An IEEE `double` as far as the claims observe it: a finite value (exact
rational payload), NaN, or infinity. -/
inductive DVal where
  | fin (q : ℚ)
  | nan
  | inf
deriving Repr, DecidableEq

/-- `(double)a / b` for nonnegative integer operands: NaN when 0/0, infinity
when x/0 with x > 0, finite otherwise. -/
def ddiv (a b : Nat) : DVal :=
  if b = 0 then (if a = 0 then DVal.nan else DVal.inf) else DVal.fin ((a : ℚ) / (b : ℚ))

/-- State of `class FlashStats` (src/flash_stats.h).  The source's
`collect_periodic_stats` stores into members `segment_bytes_hit` and
`segment_objects_hit` that the class body fails to declare (and reads
`objs_read` under the spelling `objects_read`); the two vectors are included
here as the member declarations the function requires. -/
structure FlashStats where
  counters : List (String × Counter)
  cached : List (Nat × Flags)
  copyfwd_hist : List Nat
  copyfwds : List (Nat × Nat)
  inst_stats_period : Int
  containers_erased : Nat
  containers_written : Nat
  flash_bytes_written : Nat
  last_reads : Counter
  last_hits : Counter
  last_inserts : Counter
  last_bytes_written : Nat
  segment_util : List Nat
  segment_bytes_missed : List Nat
  segment_bytes_read : List Nat
  segment_bytes_hit : List Nat
  segment_objects_missed : List Nat
  segment_objects_read : List Nat
  segment_objects_hit : List Nat
  segment_fbw : List Nat
  segment_inserts : List Nat
deriving Repr, DecidableEq

/-- `FlashStats::FlashStats(int m)`: the pre-declared counter set,
`copyfwd_hist(256, 0)`, and zero-initialised members. -/
def FlashStats.init (m : Int) : FlashStats :=
  { counters :=
      [("total_reads", Counter.zero), ("total_misses", Counter.zero),
       ("total_hits", Counter.zero), ("compulsory_misses", Counter.zero),
       ("capacity_misses", Counter.zero), ("wa_skip_misses", Counter.zero),
       ("one_hit_misses", Counter.zero), ("copyfwd_hits", Counter.zero),
       ("copy_forwards", Counter.zero), ("inserts", Counter.zero),
       ("reinserts", Counter.zero), ("skipped_copyfwds", Counter.zero),
       ("skipped_inserts", Counter.zero), ("total_placements", Counter.zero)],
    cached := [], copyfwd_hist := List.replicate 256 0, copyfwds := [],
    inst_stats_period := m, containers_erased := 0, containers_written := 0,
    flash_bytes_written := 0, last_reads := Counter.zero, last_hits := Counter.zero,
    last_inserts := Counter.zero, last_bytes_written := 0,
    segment_util := [], segment_bytes_missed := [], segment_bytes_read := [],
    segment_bytes_hit := [], segment_objects_missed := [], segment_objects_read := [],
    segment_objects_hit := [], segment_fbw := [], segment_inserts := [] }

/-- The object total of a named counter. -/
def objCount (s : FlashStats) (name : String) : Nat :=
  (cget s.counters name).object_counter

/-- The byte total of a named counter. -/
def byteCount (s : FlashStats) (name : String) : Nat :=
  (cget s.counters name).byte_counter

/-- `FlashStats::on_miss` (src/flash_stats.h:163-196).  `total_misses` is
incremented first; an unseen key is a compulsory miss and gets a fresh
all-clear bitset; a seen key with `SKIPPED_INSERT` or `SKIPPED_CF` is a
wa-skip miss (the `assert(flags[INSERTED])` inside the `SKIPPED_CF` branch is
the `none` case); otherwise `assert(flags[INSERTED])` then a capacity miss.
The two sequential `reset` calls on `cached[key]` appear as two `mupd`s, the
second acting on the entry the first one left. -/
def FlashStats.on_miss (s : FlashStats) (key osize : Nat) : Option FlashStats :=
  let c0 := cincr s.counters "total_misses" osize
  match mfind s.cached key with
  | none =>
      some { s with counters := cincr c0 "compulsory_misses" osize,
                    cached := mupd s.cached key {} }
  | some flags =>
      if flags.skipped_insert || flags.skipped_cf then
        let c1 := cincr c0 "wa_skip_misses" osize
        if flags.skipped_cf then
          if flags.inserted then
            some { s with counters := c1,
                          cached := mupd (mupd s.cached key { flags with skipped_cf := false })
                            key { flags with skipped_cf := false, skipped_insert := false } }
          else none
        else
          some { s with counters := c1,
                        cached := mupd s.cached key { flags with skipped_insert := false } }
      else
        if flags.inserted then
          some { s with counters := cincr c0 "capacity_misses" osize }
        else none

/-- `FlashStats::on_insert_attempt` (src/flash_stats.h:203-225).  In the
`was_inserted` branch `cached[key]` is read through `operator[]` (creating an
all-clear entry for an unseen key) before `INSERTED` is set. -/
def FlashStats.on_insert_attempt (s : FlashStats) (key osize : Nat)
    (was_inserted was_redundant : Bool) : FlashStats :=
  if was_inserted then
    let flags := (mfind s.cached key).getD {}
    let c1 := cincr s.counters "inserts" osize
    let c2 := if flags.inserted then cincr c1 "reinserts" osize else c1
    { s with counters := c2, cached := mupd s.cached key { flags with inserted := true } }
  else
    if !was_redundant then
      let flags := (mfind s.cached key).getD {}
      { s with counters := cincr s.counters "skipped_inserts" osize,
               cached := mupd s.cached key { flags with skipped_insert := true } }
    else s

/-- `FlashStats::on_copyfwd_attempt` (src/flash_stats.h:228-241).  The
`skipped_copyfwd` parameter selects the first branch; `copyfwds[key]` is read
through `operator[]` (0 for an absent key) and incremented only below `0xff`. -/
def FlashStats.on_copyfwd_attempt (s : FlashStats) (key osize : Nat)
    (was_copied_forward skipped_copyfwd : Bool) : FlashStats :=
  if skipped_copyfwd then
    let flags := (mfind s.cached key).getD {}
    { s with counters := cincr s.counters "skipped_copyfwds" osize,
             cached := mupd s.cached key { flags with skipped_cf := true } }
  else
    if was_copied_forward then
      let flags := (mfind s.cached key).getD {}
      let v := (mfind s.copyfwds key).getD 0
      { s with counters := cincr s.counters "copy_forwards" osize,
               copyfwds := mupd s.copyfwds key (if v < 255 then v + 1 else v),
               cached := mupd s.cached key { flags with cf := true } }
    else s

/-- `FlashStats::on_erase` (src/flash_stats.h:243-261).  `assert(it !=
cached.end())` and `assert(it->second[INSERTED])` are the two `none` cases
(they fire before any counter is touched); `cached[key] &= ~(1<<CF | 1<<READ)`
clears exactly `CF` and `READ`; `copyfwd_hist[copyfwds[key]]++` uses the
per-key count (0 when absent) as the bucket index, then the `copyfwds` entry
is erased. -/
def FlashStats.on_erase (s : FlashStats) (key osize : Nat) : Option FlashStats :=
  match mfind s.cached key with
  | none => none
  | some flags =>
      if flags.inserted then
        let c1 := if !flags.read then cincr s.counters "one_hit_misses" osize else s.counters
        let idx := (mfind s.copyfwds key).getD 0
        some { s with counters := c1,
                      cached := mupd s.cached key { flags with read := false, cf := false },
                      copyfwd_hist := s.copyfwd_hist.set idx (s.copyfwd_hist.getD idx 0 + 1),
                      copyfwds := merase s.copyfwds key }
      else none

/-- `FlashStats::on_container_erase` (src/flash_stats.h:263-265). -/
def FlashStats.on_container_erase (s : FlashStats) : FlashStats :=
  { s with containers_erased := s.containers_erased + 1 }

/-- `FlashStats::on_access` (src/flash_stats.h:267-269). -/
def FlashStats.on_access (s : FlashStats) (osize : Nat) : FlashStats :=
  { s with counters := cincr s.counters "total_reads" osize }

/-- `FlashStats::on_hit` (src/flash_stats.h:271-279): `cached[key][CF]` reads
through `operator[]`, then `READ` is set on the same entry. -/
def FlashStats.on_hit (s : FlashStats) (key osize : Nat) : FlashStats :=
  let c1 := cincr s.counters "total_hits" osize
  let flags := (mfind s.cached key).getD {}
  let c2 := if flags.cf then cincr c1 "copyfwd_hits" osize else c1
  { s with counters := c2, cached := mupd s.cached key { flags with read := true } }

/-- `FlashStats::on_evict` (src/flash_stats.h:281-283): a no-op hook. -/
def FlashStats.on_evict (s : FlashStats) (_key _osize : Nat) : FlashStats :=
  s

/-- `FlashStats::on_write` (src/flash_stats.h:288-291): increments the
`objects_written` counter (a name absent from the constructor's pre-declared
set, so `operator[]` creates it on first use) and adds to
`flash_bytes_written`. -/
def FlashStats.on_write (s : FlashStats) (osize : Nat) : FlashStats :=
  { s with counters := cincr s.counters "objects_written" osize,
           flash_bytes_written := s.flash_bytes_written + osize }

/-- `FlashStats::on_container_flush` (src/flash_stats.h:294-297). -/
def FlashStats.on_container_flush (s : FlashStats) (unused_capacity : Nat) : FlashStats :=
  { s with flash_bytes_written := s.flash_bytes_written + unused_capacity,
           containers_written := s.containers_written + 1 }

/-- `FlashStats::on_zone_insert` (src/flash_stats.h:299-301). -/
def FlashStats.on_zone_insert (s : FlashStats) (osize : Nat) : FlashStats :=
  { s with counters := cincr s.counters "total_placements" osize }

/-- `FlashStats::collect_periodic_stats` (src/flash_stats.h:122-145): pushes
the delta since the last call for bytes/objects read and hit, inserted bytes
and flash bytes written, updates the `last_*` snapshots, and records the
caller-supplied utilization sample. -/
def FlashStats.collect_periodic_stats (s : FlashStats) (total_size : Nat) : FlashStats :=
  let reads := cget s.counters "total_reads"
  let hits := cget s.counters "total_hits"
  let ins := cget s.counters "inserts"
  { s with
    segment_bytes_read := s.segment_bytes_read ++ [reads.byte_counter - s.last_reads.byte_counter],
    segment_bytes_hit := s.segment_bytes_hit ++ [hits.byte_counter - s.last_hits.byte_counter],
    segment_objects_read :=
      s.segment_objects_read ++ [reads.object_counter - s.last_reads.object_counter],
    segment_objects_hit :=
      s.segment_objects_hit ++ [hits.object_counter - s.last_hits.object_counter],
    last_reads := reads, last_hits := hits,
    segment_inserts := s.segment_inserts ++ [ins.byte_counter - s.last_inserts.byte_counter],
    segment_fbw := s.segment_fbw ++ [s.flash_bytes_written - s.last_bytes_written],
    last_inserts := ins, last_bytes_written := s.flash_bytes_written,
    segment_util := s.segment_util ++ [total_size] }

/-- The overall byte hit ratio printed by `FlashStats::print_periodic_stats`
(src/flash_stats.h:149): `(double)total_hits.bytes / total_reads.bytes`, with
no zero-denominator guard. -/
def FlashStats.overall_bhr (s : FlashStats) : DVal :=
  ddiv (cget s.counters "total_hits").byte_counter (cget s.counters "total_reads").byte_counter

/-- The overall object hit ratio printed by `FlashStats::print_periodic_stats`
(src/flash_stats.h:151), unguarded. -/
def FlashStats.overall_ohr (s : FlashStats) : DVal :=
  ddiv (cget s.counters "total_hits").object_counter
    (cget s.counters "total_reads").object_counter

/-- The overall write amplification printed by
`FlashStats::print_periodic_stats` (src/flash_stats.h:153):
`(double)flash_bytes_written / inserts.bytes`, unguarded. -/
def FlashStats.overall_wa (s : FlashStats) : DVal :=
  ddiv s.flash_bytes_written (cget s.counters "inserts").byte_counter

/-- `print_segment_data` (src/common.cc:3-11, duplicated at
src/flash_stats.h:303-311).  On an empty vector the loop bound
`data.size() - 1` underflows (size_t) and `data.back()` indexes an empty
vector: the rendering performs an out-of-range access, modelled as `none`.
On a nonempty vector the loop writes every element but the last followed by
`", "`, then the last element and `"]"`. -/
def print_segment_data (data : List Nat) (name : String) : Option String :=
  match data with
  | [] => none
  | _ =>
      some ("\"" ++ name ++ "\": ["
        ++ String.intercalate ", " (data.map (fun n => toString n)) ++ "]")

/-- State of `class CacheStats` (src/cache_stats.h).  `segment_bhr` and
`segment_ohr` are `vector<double>`, modelled as lists of `DVal`. -/
structure CacheStats where
  counters : List (String × Counter)
  inst_stats_period : Int
  last_reads : Counter
  last_hits : Counter
  last_inserts : Counter
  last_bytes_written : Nat
  segment_bhr : List DVal
  segment_ohr : List DVal
  segment_inserts : List Nat
deriving Repr, DecidableEq

/-- `CacheStats::CacheStats(int m)` (src/cache_stats.h:31-41). -/
def CacheStats.init (m : Int) : CacheStats :=
  { counters :=
      [("total_reads", Counter.zero), ("total_misses", Counter.zero),
       ("total_hits", Counter.zero), ("inserts", Counter.zero),
       ("dram_hits", Counter.zero), ("dram_misses", Counter.zero)],
    inst_stats_period := m, last_reads := Counter.zero, last_hits := Counter.zero,
    last_inserts := Counter.zero, last_bytes_written := 0,
    segment_bhr := [], segment_ohr := [], segment_inserts := [] }

/-- `CacheStats::on_insert` (src/cache_stats.h:94-96). -/
def CacheStats.on_insert (s : CacheStats) (osize : Nat) : CacheStats :=
  { s with counters := cincr s.counters "inserts" osize }

/-- `CacheStats::on_access` (src/cache_stats.h:98-100). -/
def CacheStats.on_access (s : CacheStats) (osize : Nat) : CacheStats :=
  { s with counters := cincr s.counters "total_reads" osize }

/-- `CacheStats::on_hit` (src/cache_stats.h:102-104). -/
def CacheStats.on_hit (s : CacheStats) (osize : Nat) : CacheStats :=
  { s with counters := cincr s.counters "total_hits" osize }

/-- `CacheStats::collect_periodic_stats` (src/cache_stats.h:52-80).  `bhr` is
guarded: it stays `0` when the byte-read delta is zero.  The `ohr` branch of
the source computes the guarded quotient but discards it (the assignment to
`ohr` is missing), so `ohr` is always `0`.  `segment_inserts` receives the
cumulative `counters["inserts"].byte_counter` — not a delta — even though
`last_inserts` is refreshed right after. -/
def CacheStats.collect_periodic_stats (s : CacheStats) : CacheStats :=
  let reads := cget s.counters "total_reads"
  let hits := cget s.counters "total_hits"
  let bhr : DVal :=
    if reads.byte_counter - s.last_reads.byte_counter ≠ 0 then
      DVal.fin (((hits.byte_counter - s.last_hits.byte_counter : Nat) : ℚ)
        / ((reads.byte_counter - s.last_reads.byte_counter : Nat) : ℚ))
    else DVal.fin 0
  let ohr : DVal := DVal.fin 0
  { s with segment_bhr := s.segment_bhr ++ [bhr],
           segment_ohr := s.segment_ohr ++ [ohr],
           last_reads := reads, last_hits := hits,
           segment_inserts := s.segment_inserts ++ [(cget s.counters "inserts").byte_counter],
           last_inserts := cget s.counters "inserts" }

/-- One event of the `FlashStats` callback interface, used to talk about
whole runs. -/
inductive Ev where
  | access (sz : Nat)
  | hit (key sz : Nat)
  | miss (key sz : Nat)
  | insertAttempt (key sz : Nat) (was_inserted was_redundant : Bool)
  | copyfwdAttempt (key sz : Nat) (was_copied_forward skipped_copyfwd : Bool)
  | erase (key sz : Nat)
  | write (sz : Nat)
  | containerFlush (unused : Nat)
  | containerErase
  | evict (key sz : Nat)
  | zoneInsert (sz : Nat)
  | collect (total : Nat)
deriving Repr, DecidableEq

/-- Dispatch one event to the corresponding `FlashStats` member; `none` when
the member's assertion fires. -/
def step (s : FlashStats) : Ev → Option FlashStats
  | Ev.access sz => some (s.on_access sz)
  | Ev.hit k sz => some (s.on_hit k sz)
  | Ev.miss k sz => s.on_miss k sz
  | Ev.insertAttempt k sz wi wr => some (s.on_insert_attempt k sz wi wr)
  | Ev.copyfwdAttempt k sz wcf scf => some (s.on_copyfwd_attempt k sz wcf scf)
  | Ev.erase k sz => s.on_erase k sz
  | Ev.write sz => some (s.on_write sz)
  | Ev.containerFlush u => some (s.on_container_flush u)
  | Ev.containerErase => some s.on_container_erase
  | Ev.evict k sz => some (s.on_evict k sz)
  | Ev.zoneInsert sz => some (s.on_zone_insert sz)
  | Ev.collect t => some (s.collect_periodic_stats t)

/-- Deliver a list of events in order; `none` as soon as any assertion
fires (a run that reaches the end was delivered in valid causal order). -/
def run (s : FlashStats) : List Ev → Option FlashStats
  | [] => some s
  | e :: rest =>
      match step s e with
      | some s' => run s' rest
      | none => none

/-- Number of `erase` events in a list. -/
def countErase : List Ev → Nat
  | [] => 0
  | Ev.erase _ _ :: rest => countErase rest + 1
  | _ :: rest => countErase rest

/-! ### Association-list lemmas -/

theorem mfind_mupd_self {κ α : Type} [DecidableEq κ] (m : List (κ × α)) (k : κ) (v : α) :
    mfind (mupd m k v) k = some v := by
  induction m with
  | nil => simp [mupd, mfind]
  | cons p rest ih =>
      obtain ⟨a, b⟩ := p
      by_cases h : a = k
      · subst h; simp [mupd, mfind]
      · simp [mupd, mfind, h, ih]

theorem mfind_mupd_ne {κ α : Type} [DecidableEq κ] (m : List (κ × α)) (k k' : κ) (v : α)
    (h : k' ≠ k) : mfind (mupd m k v) k' = mfind m k' := by
  induction m with
  | nil =>
      have h' : ¬ (k = k') := fun hh => h hh.symm
      simp [mupd, mfind, h']
  | cons p rest ih =>
      obtain ⟨a, b⟩ := p
      by_cases hak : a = k
      · subst hak
        have h' : ¬ (a = k') := fun hh => h hh.symm
        simp [mupd, mfind, h']
      · by_cases hak' : a = k'
        · subst hak'; simp [mupd, mfind, hak]
        · simp [mupd, mfind, hak, hak', ih]

theorem mupd_mupd {κ α : Type} [DecidableEq κ] (m : List (κ × α)) (k : κ) (v w : α) :
    mupd (mupd m k v) k w = mupd m k w := by
  induction m with
  | nil => simp [mupd]
  | cons p rest ih =>
      obtain ⟨a, b⟩ := p
      by_cases h : a = k
      · subst h; simp [mupd]
      · simp [mupd, h, ih]

theorem mfind_merase_self {κ α : Type} [DecidableEq κ] (m : List (κ × α)) (k : κ) :
    mfind (merase m k) k = none := by
  induction m with
  | nil => simp [merase, mfind]
  | cons p rest ih =>
      obtain ⟨a, b⟩ := p
      by_cases h : a = k
      · subst h; simpa [merase] using ih
      · simp [merase, mfind, h, ih]

theorem mem_mupd {κ α : Type} [DecidableEq κ] (m : List (κ × α)) (k : κ) (v : α)
    (p : κ × α) (hp : p ∈ mupd m k v) : p = (k, v) ∨ p ∈ m := by
  induction m with
  | nil =>
      rw [show mupd ([] : List (κ × α)) k v = [(k, v)] from rfl] at hp
      exact Or.inl (List.mem_singleton.mp hp)
  | cons q rest ih =>
      obtain ⟨a, b⟩ := q
      by_cases h : a = k
      · subst h
        rw [show mupd ((a, b) :: rest) a v = (a, v) :: rest by simp [mupd]] at hp
        rcases List.mem_cons.mp hp with h1 | h2
        · exact Or.inl h1
        · exact Or.inr (List.mem_cons_of_mem _ h2)
      · rw [show mupd ((a, b) :: rest) k v = (a, b) :: mupd rest k v by simp [mupd, h]] at hp
        rcases List.mem_cons.mp hp with h1 | h2
        · exact Or.inr (h1 ▸ List.mem_cons_self _ _)
        · rcases ih h2 with h3 | h4
          · exact Or.inl h3
          · exact Or.inr (List.mem_cons_of_mem _ h4)

theorem mem_merase {κ α : Type} [DecidableEq κ] (m : List (κ × α)) (k : κ)
    (p : κ × α) (hp : p ∈ merase m k) : p ∈ m := by
  induction m with
  | nil => simp [merase] at hp
  | cons q rest ih =>
      obtain ⟨a, b⟩ := q
      by_cases h : a = k
      · subst h
        rw [show merase ((a, b) :: rest) a = merase rest a by simp [merase]] at hp
        exact List.mem_cons_of_mem _ (ih hp)
      · rw [show merase ((a, b) :: rest) k = (a, b) :: merase rest k by simp [merase, h]] at hp
        rcases List.mem_cons.mp hp with h1 | h2
        · exact h1 ▸ List.mem_cons_self _ _
        · exact List.mem_cons_of_mem _ (ih h2)

theorem mfind_mem {κ α : Type} [DecidableEq κ] (m : List (κ × α)) (k : κ) (v : α)
    (h : mfind m k = some v) : (k, v) ∈ m := by
  induction m with
  | nil => simp [mfind] at h
  | cons q rest ih =>
      obtain ⟨a, b⟩ := q
      by_cases hak : a = k
      · subst hak
        have hb : b = v := by simpa [mfind] using h
        subst hb
        exact List.mem_cons_self _ _
      · simp only [mfind, if_neg hak] at h
        exact List.mem_cons_of_mem _ (ih h)

/-- The value of a named counter after `counters[n].increment(sz)`: the named
counter moved, every other name is untouched. -/
theorem cget_cincr (m : List (String × Counter)) (n n' : String) (sz : Nat) :
    cget (cincr m n sz) n' =
      if n = n' then (cget m n).increment sz else cget m n' := by
  by_cases h : n = n'
  · subst h; simp [cget, cincr, mfind_mupd_self]
  · have h' : n' ≠ n := fun hh => h hh.symm
    simp [cget, cincr, h, mfind_mupd_ne _ _ _ _ h']

/-- Bumping bucket `i` of a histogram (an in-range `vector` index) raises the
bucket sum by exactly one. -/
theorem sum_set_getD (l : List Nat) (i : Nat) (h : i < l.length) :
    (l.set i (l.getD i 0 + 1)).sum = l.sum + 1 := by
  induction l generalizing i with
  | nil => simp at h
  | cons a rest ih =>
      cases i with
      | zero => simp [List.getD]; omega
      | succ j =>
          have hj : j < rest.length := by simpa using h
          simp [List.getD] at ih ⊢
          have := ih j hj
          omega

/-! ### Miss-category accounting invariant -/

/-- The three miss categories counted inside `on_miss` partition
`total_misses`, both in objects and in bytes. -/
def missInv (s : FlashStats) : Prop :=
  objCount s "compulsory_misses" + objCount s "capacity_misses" + objCount s "wa_skip_misses"
      = objCount s "total_misses" ∧
  byteCount s "compulsory_misses" + byteCount s "capacity_misses" + byteCount s "wa_skip_misses"
      = byteCount s "total_misses"

theorem missInv_step (s s' : FlashStats) (e : Ev) (h : step s e = some s')
    (hs : missInv s) : missInv s' := by
  cases e with
  | access sz =>
      simp only [step, FlashStats.on_access, Option.some.injEq] at h
      subst h
      simp [missInv, objCount, byteCount, cget_cincr, Counter.increment] at hs ⊢
      omega
  | hit k sz =>
      simp only [step, FlashStats.on_hit, Option.some.injEq] at h
      subst h
      by_cases hcf : ((mfind s.cached k).getD {}).cf = true <;>
        simp [missInv, objCount, byteCount, cget_cincr, Counter.increment, hcf] at hs ⊢ <;>
        omega
  | miss k sz =>
      simp only [step] at h
      cases hm : mfind s.cached k with
      | none =>
          simp only [FlashStats.on_miss, hm, Option.some.injEq] at h
          subst h
          simp [missInv, objCount, byteCount, cget_cincr, Counter.increment] at hs ⊢
          omega
      | some f =>
          obtain ⟨fi, fr, fsi, fscf, fcf⟩ := f
          cases fsi <;> cases fscf <;> cases fi <;>
            simp [FlashStats.on_miss, hm] at h <;>
            subst h <;>
            simp [missInv, objCount, byteCount, cget_cincr, Counter.increment] at hs ⊢ <;>
            omega
  | insertAttempt k sz wi wr =>
      simp only [step, Option.some.injEq] at h
      by_cases hins : ((mfind s.cached k).getD {}).inserted = true <;>
        cases wi <;> cases wr <;>
        simp [FlashStats.on_insert_attempt, hins] at h <;>
        subst h <;>
        simp [missInv, objCount, byteCount, cget_cincr, Counter.increment, hins] at hs ⊢ <;>
        omega
  | copyfwdAttempt k sz wcf scf =>
      simp only [step, Option.some.injEq] at h
      cases scf <;> cases wcf <;>
        simp [FlashStats.on_copyfwd_attempt] at h <;>
        subst h <;>
        simp [missInv, objCount, byteCount, cget_cincr, Counter.increment] at hs ⊢ <;>
        omega
  | erase k sz =>
      simp only [step] at h
      cases hm : mfind s.cached k with
      | none => simp [FlashStats.on_erase, hm] at h
      | some f =>
          by_cases hins : f.inserted = true <;> by_cases hrd : f.read = true <;>
            simp [FlashStats.on_erase, hm, hins, hrd] at h <;>
            subst h <;>
            simp [missInv, objCount, byteCount, cget_cincr, Counter.increment] at hs ⊢ <;>
            omega
  | write sz =>
      simp only [step, FlashStats.on_write, Option.some.injEq] at h
      subst h
      simp [missInv, objCount, byteCount, cget_cincr, Counter.increment] at hs ⊢
      omega
  | containerFlush u =>
      simp only [step, FlashStats.on_container_flush, Option.some.injEq] at h
      subst h
      exact hs
  | containerErase =>
      simp only [step, FlashStats.on_container_erase, Option.some.injEq] at h
      subst h
      exact hs
  | evict k sz =>
      simp only [step, FlashStats.on_evict, Option.some.injEq] at h
      subst h
      exact hs
  | zoneInsert sz =>
      simp only [step, FlashStats.on_zone_insert, Option.some.injEq] at h
      subst h
      simp [missInv, objCount, byteCount, cget_cincr, Counter.increment] at hs ⊢
      omega
  | collect t =>
      simp only [step, FlashStats.collect_periodic_stats, Option.some.injEq] at h
      subst h
      exact hs

theorem missInv_run (evs : List Ev) : ∀ (s s' : FlashStats),
    missInv s → run s evs = some s' → missInv s' := by
  induction evs with
  | nil =>
      intro s s' hs h
      simp only [run, Option.some.injEq] at h
      exact h ▸ hs
  | cons e rest ih =>
      intro s s' hs h
      simp only [run] at h
      cases hstep : step s e with
      | none => rw [hstep] at h; exact absurd h (by simp)
      | some s1 =>
          rw [hstep] at h
          exact ih s1 s' (missInv_step s s1 e hstep hs) h

/-! ### Copy-forward count and histogram invariant -/

/-- Per-key copy-forward counts stay within the uint8 saturation bound and
the histogram keeps its 256 buckets. -/
def cfInv (s : FlashStats) : Prop :=
  (∀ p ∈ s.copyfwds, p.2 ≤ 255) ∧ s.copyfwd_hist.length = 256

theorem cfInv_step (s s' : FlashStats) (e : Ev) (h : step s e = some s')
    (hc : cfInv s) :
    cfInv s' ∧ s'.copyfwd_hist.sum = s.copyfwd_hist.sum + countErase [e] := by
  obtain ⟨hb, hl⟩ := hc
  cases e with
  | access sz =>
      simp only [step, FlashStats.on_access, Option.some.injEq] at h
      subst h
      exact ⟨⟨hb, hl⟩, by simp [countErase]⟩
  | hit k sz =>
      simp only [step, FlashStats.on_hit, Option.some.injEq] at h
      subst h
      by_cases hcf : ((mfind s.cached k).getD {}).cf = true <;>
        exact ⟨⟨hb, hl⟩, by simp [countErase]⟩
  | miss k sz =>
      simp only [step] at h
      cases hm : mfind s.cached k with
      | none =>
          simp only [FlashStats.on_miss, hm, Option.some.injEq] at h
          subst h
          exact ⟨⟨hb, hl⟩, by simp [countErase]⟩
      | some f =>
          obtain ⟨fi, fr, fsi, fscf, fcf⟩ := f
          cases fsi <;> cases fscf <;> cases fi <;>
            simp [FlashStats.on_miss, hm] at h <;>
            subst h <;>
            exact ⟨⟨hb, hl⟩, by simp [countErase]⟩
  | insertAttempt k sz wi wr =>
      simp only [step, Option.some.injEq] at h
      by_cases hins : ((mfind s.cached k).getD {}).inserted = true <;>
        cases wi <;> cases wr <;>
        simp [FlashStats.on_insert_attempt, hins] at h <;>
        subst h <;>
        exact ⟨⟨hb, hl⟩, by simp [countErase]⟩
  | copyfwdAttempt k sz wcf scf =>
      simp only [step, Option.some.injEq] at h
      cases scf with
      | true =>
          simp [FlashStats.on_copyfwd_attempt] at h
          subst h
          exact ⟨⟨hb, hl⟩, by simp [countErase]⟩
      | false =>
          cases wcf with
          | false =>
              simp [FlashStats.on_copyfwd_attempt] at h
              subst h
              exact ⟨⟨hb, hl⟩, by simp [countErase]⟩
          | true =>
              simp [FlashStats.on_copyfwd_attempt] at h
              subst h
              refine ⟨⟨?_, hl⟩, by simp [countErase]⟩
              have hv : ((mfind s.copyfwds k).getD 0) ≤ 255 := by
                cases hmc : mfind s.copyfwds k with
                | none => simp
                | some w => simpa using hb (k, w) (mfind_mem _ _ _ hmc)
              intro p hp
              rcases mem_mupd _ _ _ _ hp with h1 | h2
              · subst h1
                simp only
                split <;> omega
              · exact hb p h2
  | erase k sz =>
      simp only [step] at h
      cases hm : mfind s.cached k with
      | none => simp [FlashStats.on_erase, hm] at h
      | some f =>
          by_cases hins : f.inserted = true <;>
            simp [FlashStats.on_erase, hm, hins] at h
          subst h
          have hidx : ((mfind s.copyfwds k).getD 0) ≤ 255 := by
            cases hmc : mfind s.copyfwds k with
            | none => simp
            | some w => simpa using hb (k, w) (mfind_mem _ _ _ hmc)
          have hlt : ((mfind s.copyfwds k).getD 0) < s.copyfwd_hist.length := by omega
          refine ⟨⟨?_, ?_⟩, ?_⟩
          · intro p hp
            exact hb p (mem_merase _ _ _ hp)
          · simpa using hl
          · have hsum := sum_set_getD s.copyfwd_hist ((mfind s.copyfwds k).getD 0) hlt
            rw [List.getD_eq_getElem?_getD] at hsum
            simpa [countErase] using hsum
  | write sz =>
      simp only [step, FlashStats.on_write, Option.some.injEq] at h
      subst h
      exact ⟨⟨hb, hl⟩, by simp [countErase]⟩
  | containerFlush u =>
      simp only [step, FlashStats.on_container_flush, Option.some.injEq] at h
      subst h
      exact ⟨⟨hb, hl⟩, by simp [countErase]⟩
  | containerErase =>
      simp only [step, FlashStats.on_container_erase, Option.some.injEq] at h
      subst h
      exact ⟨⟨hb, hl⟩, by simp [countErase]⟩
  | evict k sz =>
      simp only [step, FlashStats.on_evict, Option.some.injEq] at h
      subst h
      exact ⟨⟨hb, hl⟩, by simp [countErase]⟩
  | zoneInsert sz =>
      simp only [step, FlashStats.on_zone_insert, Option.some.injEq] at h
      subst h
      exact ⟨⟨hb, hl⟩, by simp [countErase]⟩
  | collect t =>
      simp only [step, FlashStats.collect_periodic_stats, Option.some.injEq] at h
      subst h
      exact ⟨⟨hb, hl⟩, by simp [countErase]⟩

theorem cfInv_run (evs : List Ev) : ∀ (s s' : FlashStats), cfInv s → run s evs = some s' →
    cfInv s' ∧ s'.copyfwd_hist.sum = s.copyfwd_hist.sum + countErase evs := by
  induction evs with
  | nil =>
      intro s s' hc h
      simp only [run, Option.some.injEq] at h
      subst h
      exact ⟨hc, by simp [countErase]⟩
  | cons e rest ih =>
      intro s s' hc h
      simp only [run] at h
      cases hstep : step s e with
      | none => rw [hstep] at h; exact absurd h (by simp)
      | some s1 =>
          rw [hstep] at h
          obtain ⟨hc1, hsum1⟩ := cfInv_step s s1 e hstep hc
          obtain ⟨hc2, hsum2⟩ := ih s1 s' hc1 h
          refine ⟨hc2, ?_⟩
          rw [hsum2, hsum1]
          cases e <;> (simp only [countErase]; omega)

/-! ### Claim theorems -/

/-- C3 counterexample: with `was_copied_forward = false` and the source's
fourth argument `skipped_copyfwd` also false, `on_copyfwd_attempt` is a
complete no-op — the key's `SKIPPED_CF` flag is not set and
`skipped_copyfwds` is not incremented — contradicting the claim that every
call with `was_copied_forward = false` records a skipped copy-forward. -/
theorem on_copyfwd_attempt_claim_cex :
    FlashStats.on_copyfwd_attempt (FlashStats.init 10) 1 5 false false = FlashStats.init 10 ∧
    mfind (FlashStats.on_copyfwd_attempt (FlashStats.init 10) 1 5 false false).cached 1 = none ∧
    ¬ (objCount (FlashStats.on_copyfwd_attempt (FlashStats.init 10) 1 5 false false)
          "skipped_copyfwds"
        = objCount (FlashStats.init 10) "skipped_copyfwds" + 1) := by
  decide

/-- C3 amended: `on_copyfwd_attempt` takes a fourth `skipped_copyfwd`
argument which alone selects the skip branch: when it is true, `SKIPPED_CF`
is set and `skipped_copyfwds` is incremented (whatever `was_copied_forward`
says); otherwise, when `was_copied_forward` is true, `CF` is set,
`copy_forwards` is incremented and the key's per-key copy-forward count is
incremented, saturating at 255; when both are false the call changes
nothing. -/
theorem on_copyfwd_attempt_characterization (s : FlashStats) (k sz : Nat) (wcf : Bool) :
    FlashStats.on_copyfwd_attempt s k sz wcf true =
      { s with counters := cincr s.counters "skipped_copyfwds" sz,
               cached := mupd s.cached k
                 { ((mfind s.cached k).getD {}) with skipped_cf := true } } ∧
    FlashStats.on_copyfwd_attempt s k sz true false =
      { s with counters := cincr s.counters "copy_forwards" sz,
               copyfwds := mupd s.copyfwds k
                 (if (mfind s.copyfwds k).getD 0 < 255 then (mfind s.copyfwds k).getD 0 + 1
                  else (mfind s.copyfwds k).getD 0),
               cached := mupd s.cached k { ((mfind s.cached k).getD {}) with cf := true } } ∧
    FlashStats.on_copyfwd_attempt s k sz false false = s := by
  exact ⟨rfl, rfl, rfl⟩

/-- C6 counterexample: `on_write` directly increments `objects_written`, a
name absent from the constructor's pre-declared counter set, and the
operation silently creates the counter (C++ `unordered_map::operator[]`
semantics) instead of failing fast. -/
theorem unknown_counter_silently_created_cex :
    mfind (FlashStats.init 10).counters "objects_written" = none ∧
    mfind (FlashStats.on_write (FlashStats.init 10) 5).counters "objects_written"
      = some { byte_counter := 5, object_counter := 1 } := by
  decide

/-- C6 amended: a direct counter increment never fails fast — it updates the
named entry when present and silently appends a fresh zero counter when
absent — and `on_write`'s target name `objects_written` is not among the
constructor's pre-declared names (no `increment_custom_counter` entry point
exists in the sources). -/
theorem increment_unknown_name_creates_counter (m : List (String × Counter))
    (name : String) (sz : Nat) (p : Int) :
    mfind (cincr m name sz) name = some ((cget m name).increment sz) ∧
    ¬ ("objects_written" ∈ (FlashStats.init p).counters.map Prod.fst) ∧
    (∀ (s : FlashStats) (n : Nat),
      (FlashStats.on_write s n).counters = cincr s.counters "objects_written" n) := by
  refine ⟨?_, ?_, ?_⟩
  · simp [cincr, mfind_mupd_self]
  · simp [FlashStats.init]
  · intro s n
    rfl

/-- C7 (code bug): with zero reads and zero inserted bytes — the state right
after construction, even after a first `collect_periodic_stats` — the overall
ratios printed by `print_periodic_stats` are unguarded IEEE divisions `0/0`,
which is NaN, not the claimed defined value 0. -/
theorem zero_denominator_ratio_is_nan :
    FlashStats.overall_wa ((FlashStats.init 10).collect_periodic_stats 0) = DVal.nan ∧
    FlashStats.overall_bhr ((FlashStats.init 10).collect_periodic_stats 0) = DVal.nan ∧
    FlashStats.overall_ohr ((FlashStats.init 10).collect_periodic_stats 0) = DVal.nan ∧
    DVal.nan ≠ DVal.fin 0 := by
  decide

/-- C8 (code bug): on an empty segment series — the state after zero
`collect_periodic_stats` calls — `print_segment_data`'s loop bound
`data.size() - 1` underflows and `data.back()` indexes an empty vector, an
out-of-range access (`none`) instead of the valid empty array the claim
requires; a one-element series does render correctly. -/
theorem empty_segment_series_render_fails :
    (FlashStats.init 10).segment_util = [] ∧
    print_segment_data [] "segment_util" = none ∧
    print_segment_data [7] "segment_util" = some "\"segment_util\": [7]" := by
  decide

/-- C9 (code bug): after one `on_insert(10)`, two back-to-back
`collect_periodic_stats` calls on `CacheStats` append the cumulative
inserted-byte total both times (`[10, 10]`) — the second entry is not the
zero delta the claim requires — while the cumulative counters stay unchanged;
`FlashStats`, whose collector does subtract `last_inserts`, appends the zero
delta (`[10, 0]`). -/
theorem second_collect_appends_cumulative_inserts :
    (((CacheStats.init 7).on_insert 10).collect_periodic_stats.collect_periodic_stats).segment_inserts
        = [10, 10] ∧
    cget (((CacheStats.init 7).on_insert 10).collect_periodic_stats.collect_periodic_stats).counters
        "inserts"
      = cget (((CacheStats.init 7).on_insert 10).collect_periodic_stats).counters "inserts" ∧
    ((((FlashStats.init 7).on_insert_attempt 1 10 true false).collect_periodic_stats
        0).collect_periodic_stats 0).segment_inserts = [10, 0] ∧
    (10 : Nat) ≠ 0 := by
  decide

/-- C1: `on_miss` classification.  An unseen key is a compulsory miss
(`total_misses` and `compulsory_misses` incremented, fresh all-clear flag
entry created); a seen key with `SKIPPED_INSERT` or `SKIPPED_CF` is a wa-skip
miss with both skip flags clear afterwards, fatal exactly when `SKIPPED_CF`
is set while `INSERTED` is not; otherwise a capacity miss, fatal exactly when
`INSERTED` is not set. -/
theorem on_miss_classification (s : FlashStats) (k sz : Nat) :
    (mfind s.cached k = none →
      FlashStats.on_miss s k sz = some
        { s with counters := cincr (cincr s.counters "total_misses" sz) "compulsory_misses" sz,
                 cached := mupd s.cached k {} }) ∧
    (∀ f : Flags, mfind s.cached k = some f →
      ((f.skipped_insert || f.skipped_cf) = true →
        ((f.skipped_cf = true ∧ f.inserted = false) → FlashStats.on_miss s k sz = none) ∧
        ((f.skipped_cf = true → f.inserted = true) →
          FlashStats.on_miss s k sz = some
            { s with counters := cincr (cincr s.counters "total_misses" sz) "wa_skip_misses" sz,
                     cached := mupd s.cached k
                       { f with skipped_cf := false, skipped_insert := false } })) ∧
      ((f.skipped_insert || f.skipped_cf) = false →
        (f.inserted = false → FlashStats.on_miss s k sz = none) ∧
        (f.inserted = true →
          FlashStats.on_miss s k sz = some
            { s with counters :=
                cincr (cincr s.counters "total_misses" sz) "capacity_misses" sz }))) := by
  refine ⟨?_, ?_⟩
  · intro hm
    simp [FlashStats.on_miss, hm]
  · intro f hm
    obtain ⟨fi, fr, fsi, fscf, fcf⟩ := f
    cases fsi <;> cases fscf <;> cases fi <;>
      simp [FlashStats.on_miss, hm, mupd_mupd]

/-- Witness for C1: a miss on a key unseen by a fresh tracker takes the
compulsory branch. -/
theorem on_miss_classification_witness :
    FlashStats.on_miss (FlashStats.init 0) 1 5 = some
      { FlashStats.init 0 with
          counters := cincr (cincr (FlashStats.init 0).counters "total_misses" 5)
            "compulsory_misses" 5,
          cached := mupd (FlashStats.init 0).cached 1 {} } :=
  (on_miss_classification (FlashStats.init 0) 1 5).1 (by decide)

/-- C2: every successful `on_miss` increments `total_misses` and exactly one
of the three miss categories, and along every run delivered in valid causal
order (no assertion fires) `compulsory_misses + capacity_misses +
wa_skip_misses = total_misses`, in objects and in bytes. -/
theorem miss_categories_partition_total :
    (∀ (s s' : FlashStats) (k sz : Nat), FlashStats.on_miss s k sz = some s' →
      objCount s' "total_misses" = objCount s "total_misses" + 1 ∧
      ((objCount s' "compulsory_misses" = objCount s "compulsory_misses" + 1 ∧
          objCount s' "capacity_misses" = objCount s "capacity_misses" ∧
          objCount s' "wa_skip_misses" = objCount s "wa_skip_misses") ∨
        (objCount s' "compulsory_misses" = objCount s "compulsory_misses" ∧
          objCount s' "capacity_misses" = objCount s "capacity_misses" + 1 ∧
          objCount s' "wa_skip_misses" = objCount s "wa_skip_misses") ∨
        (objCount s' "compulsory_misses" = objCount s "compulsory_misses" ∧
          objCount s' "capacity_misses" = objCount s "capacity_misses" ∧
          objCount s' "wa_skip_misses" = objCount s "wa_skip_misses" + 1))) ∧
    (∀ (p : Int) (evs : List Ev) (s' : FlashStats),
      run (FlashStats.init p) evs = some s' →
      objCount s' "compulsory_misses" + objCount s' "capacity_misses"
          + objCount s' "wa_skip_misses" = objCount s' "total_misses" ∧
      byteCount s' "compulsory_misses" + byteCount s' "capacity_misses"
          + byteCount s' "wa_skip_misses" = byteCount s' "total_misses") := by
  constructor
  · intro s s' k sz h
    cases hm : mfind s.cached k with
    | none =>
        simp only [FlashStats.on_miss, hm, Option.some.injEq] at h
        subst h
        simp [objCount, cget_cincr, Counter.increment]
    | some f =>
        obtain ⟨fi, fr, fsi, fscf, fcf⟩ := f
        cases fsi <;> cases fscf <;> cases fi <;>
          simp [FlashStats.on_miss, hm] at h <;>
          subst h <;>
          simp [objCount, cget_cincr, Counter.increment]
  · intro p evs s' h
    have hinit : missInv (FlashStats.init p) := ⟨rfl, rfl⟩
    exact missInv_run evs _ _ hinit h

/-- Witness for C2 at the one-event run `[miss 1 5]` from a fresh tracker. -/
theorem miss_categories_partition_total_witness :
    objCount (((FlashStats.init 0).on_miss 1 5).getD (FlashStats.init 0)) "compulsory_misses"
        + objCount (((FlashStats.init 0).on_miss 1 5).getD (FlashStats.init 0)) "capacity_misses"
        + objCount (((FlashStats.init 0).on_miss 1 5).getD (FlashStats.init 0)) "wa_skip_misses"
      = objCount (((FlashStats.init 0).on_miss 1 5).getD (FlashStats.init 0)) "total_misses" :=
  (miss_categories_partition_total.2 0 [Ev.miss 1 5]
    (((FlashStats.init 0).on_miss 1 5).getD (FlashStats.init 0)) (by decide)).1

/-- C4: `on_erase` is fatal exactly when the key's `INSERTED` flag is not set
(an unseen key included), and the fatal check precedes every counter update;
on success `one_hit_misses` is bumped exactly when `READ` is clear, `CF` and
`READ` are cleared while all other flags and the `cached` entry itself are
retained, the histogram bucket indexed by the key's copy-forward count is
bumped, and the per-key copy-forward entry is deleted. -/
theorem on_erase_characterization (s : FlashStats) (k sz : Nat) :
    (((mfind s.cached k).getD {}).inserted = false → FlashStats.on_erase s k sz = none) ∧
    (∀ f : Flags, mfind s.cached k = some f → f.inserted = true →
      FlashStats.on_erase s k sz = some
        { s with
            counters := if f.read then s.counters else cincr s.counters "one_hit_misses" sz,
            cached := mupd s.cached k { f with read := false, cf := false },
            copyfwd_hist := s.copyfwd_hist.set ((mfind s.copyfwds k).getD 0)
              (s.copyfwd_hist.getD ((mfind s.copyfwds k).getD 0) 0 + 1),
            copyfwds := merase s.copyfwds k } ∧
      mfind (merase s.copyfwds k) k = none) := by
  refine ⟨?_, ?_⟩
  · intro hni
    cases hm : mfind s.cached k with
    | none => simp [FlashStats.on_erase, hm]
    | some f =>
        rw [hm] at hni
        simp only [Option.getD_some] at hni
        simp [FlashStats.on_erase, hm, hni]
  · intro f hm hi
    refine ⟨?_, mfind_merase_self _ _⟩
    obtain ⟨fi, fr, fsi, fscf, fcf⟩ := f
    simp only at hi
    subst hi
    cases fr <;> simp [FlashStats.on_erase, hm]

/-- Witness for C4: erasing a key that was missed then inserted and never
read takes the success branch and deletes its copy-forward entry. -/
theorem on_erase_characterization_witness :
    mfind (merase (FlashStats.on_insert_attempt
        (((FlashStats.init 0).on_miss 1 5).getD (FlashStats.init 0)) 1 5 true false).copyfwds 1) 1
      = none :=
  ((on_erase_characterization (FlashStats.on_insert_attempt
        (((FlashStats.init 0).on_miss 1 5).getD (FlashStats.init 0)) 1 5 true false) 1 3).2
    ⟨true, false, false, false, false⟩ (by decide) rfl).2

/-- C5: along every run delivered without assertion failures, every per-key
copy-forward count is at most 255 (the saturating uint8 bound, hence every
histogram bucket index an erase uses), the histogram keeps its 256 buckets,
and the bucket sum equals the number of erase events performed. -/
theorem copyfwd_hist_accounting (p : Int) (evs : List Ev) (s' : FlashStats)
    (h : run (FlashStats.init p) evs = some s') :
    (∀ k : Nat, (mfind s'.copyfwds k).getD 0 ≤ 255) ∧
    s'.copyfwd_hist.length = 256 ∧
    s'.copyfwd_hist.sum = countErase evs := by
  have hinit : cfInv (FlashStats.init p) := by
    constructor
    · intro q hq
      simp [FlashStats.init] at hq
    · rfl
  obtain ⟨⟨hb, hl⟩, hsum⟩ := cfInv_run evs _ _ hinit h
  refine ⟨?_, hl, ?_⟩
  · intro k
    cases hmc : mfind s'.copyfwds k with
    | none => simp
    | some w => simpa using hb (k, w) (mfind_mem _ _ _ hmc)
  · rw [hsum]
    simp [FlashStats.init]

/-- Witness for C5 on the run miss-insert-erase of a single key: one erase,
bucket sum 1. -/
theorem copyfwd_hist_accounting_witness :
    ((run (FlashStats.init 0)
        [Ev.miss 1 5, Ev.insertAttempt 1 5 true false, Ev.erase 1 5]).getD
      (FlashStats.init 0)).copyfwd_hist.sum
      = countErase [Ev.miss 1 5, Ev.insertAttempt 1 5 true false, Ev.erase 1 5] :=
  (copyfwd_hist_accounting 0 [Ev.miss 1 5, Ev.insertAttempt 1 5 true false, Ev.erase 1 5]
    ((run (FlashStats.init 0)
        [Ev.miss 1 5, Ev.insertAttempt 1 5 true false, Ev.erase 1 5]).getD
      (FlashStats.init 0)) (by decide)).2.2

/-- C10: a successful insert (`was_inserted = true`) only sets `INSERTED` in
the key's flags — `SKIPPED_INSERT` and `SKIPPED_CF` survive and other keys
are untouched — so if either skip flag was set before the insert, a
subsequent `on_miss` on the same key still succeeds as a wa-skip miss:
`wa_skip_misses` is bumped and `capacity_misses` is unchanged. -/
theorem insert_keeps_skip_flags_wa_miss (s : FlashStats) (k sz : Nat) (wr : Bool) :
    mfind (FlashStats.on_insert_attempt s k sz true wr).cached k
      = some { ((mfind s.cached k).getD {}) with inserted := true } ∧
    (∀ k' : Nat, k' ≠ k →
      mfind (FlashStats.on_insert_attempt s k sz true wr).cached k' = mfind s.cached k') ∧
    ((((mfind s.cached k).getD {}).skipped_insert = true ∨
        ((mfind s.cached k).getD {}).skipped_cf = true) →
      ∀ sz' : Nat,
        (FlashStats.on_miss (FlashStats.on_insert_attempt s k sz true wr) k sz').isSome = true ∧
        objCount ((FlashStats.on_miss (FlashStats.on_insert_attempt s k sz true wr) k sz').getD
            (FlashStats.on_insert_attempt s k sz true wr)) "wa_skip_misses"
          = objCount (FlashStats.on_insert_attempt s k sz true wr) "wa_skip_misses" + 1 ∧
        objCount ((FlashStats.on_miss (FlashStats.on_insert_attempt s k sz true wr) k sz').getD
            (FlashStats.on_insert_attempt s k sz true wr)) "capacity_misses"
          = objCount (FlashStats.on_insert_attempt s k sz true wr) "capacity_misses") := by
  refine ⟨?_, ?_, ?_⟩
  · simp [FlashStats.on_insert_attempt, mfind_mupd_self]
  · intro k' hk'
    simp [FlashStats.on_insert_attempt, mfind_mupd_ne _ _ _ _ hk']
  · intro hsk sz'
    cases hm : mfind s.cached k with
    | none =>
        rw [hm] at hsk
        simp at hsk
    | some f =>
        rw [hm] at hsk
        obtain ⟨fi, fr, fsi, fscf, fcf⟩ := f
        simp only [Option.getD_some] at hsk
        have hc : mfind (FlashStats.on_insert_attempt s k sz true wr).cached k
            = some { inserted := true, read := fr, skipped_insert := fsi,
                     skipped_cf := fscf, cf := fcf } := by
          simp [FlashStats.on_insert_attempt, hm, mfind_mupd_self]
        cases fsi <;> cases fscf <;>
          simp_all [FlashStats.on_miss, objCount, cget_cincr, Counter.increment]

/-- Witness for C10: a key whose insert was first declined (setting
`SKIPPED_INSERT`) and later admitted still takes the wa-skip branch at its
next miss. -/
theorem insert_keeps_skip_flags_wa_miss_witness :
    (FlashStats.on_miss (FlashStats.on_insert_attempt
        (FlashStats.on_insert_attempt (((FlashStats.init 0).on_miss 1 5).getD (FlashStats.init 0))
          1 5 false false) 1 7 true false) 1 3).isSome = true :=
  ((insert_keeps_skip_flags_wa_miss
      (FlashStats.on_insert_attempt (((FlashStats.init 0).on_miss 1 5).getD (FlashStats.init 0))
        1 5 false false) 1 7 false).2.2 (by decide) 3).1
